import Mathlib

/-!
Shallow embedding of `clickable_urls.py` (ClickableUrls Sublime Text plugin).

The host editor (Sublime Text) is abstracted away behind a small environment
record: `view.find_all` (the regex scan), `view.scope_name`, `view.substr` are
passed in as functions, and all side effects (`add_regions`, `erase_regions`,
`print`, `open_file`, `webbrowser.open`, `error_message`) are reified as a list
of `Effect` values in the order the source code issues them.
-/

namespace ClickableUrls

/-- Sublime `Region`: a pair of positions.  `a` and `b` may be in either
order; `begin()`/`end()` are the min/max. -/
structure Region where
  a : Nat
  b : Nat
deriving DecidableEq

/-- `Region.begin()`. -/
def Region.rbegin (r : Region) : Nat := min r.a r.b

/-- `Region.end()`. -/
def Region.rend (r : Region) : Nat := max r.a r.b

/-- `Region.size()` (also `len(region)` via `__len__`). -/
def Region.size (r : Region) : Nat := r.rend - r.rbegin

/-- `Region.empty()`: `a == b`. -/
def Region.isEmptyRegion (r : Region) : Prop := r.a = r.b

instance (r : Region) : Decidable r.isEmptyRegion := by
  unfold Region.isEmptyRegion; infer_instance

/-- Sublime `Region.contains(x)` for a `Region` argument:
`self.begin() <= x.begin() and x.end() <= self.end()` (both endpoints
inclusive). -/
def Region.contains_region (r x : Region) : Bool :=
  decide (r.rbegin ≤ x.rbegin ∧ x.rend ≤ r.rend)

/-- The host-provided per-view environment: the view id plus the view methods
the plugin calls (`find_all`, `scope_name`, `substr`). -/
structure ViewEnv where
  id : Nat
  findAll : String → List Region
  scopeAt : Nat → String
  substr : Region → String

/-- The recognized settings of `ClickableUrls.sublime-settings`, with the
defaults the source supplies to `settings.get`. -/
structure Settings where
  auto_find_urls : Bool
  highlight_urls : Bool
  max_url_limit : Nat
  file_folder_regex : String
  clickable_urls_browser : Option String

/-- Reified side effects, in the order the plugin issues them. -/
inductive Effect where
  | addRegions (key : String) (regions : List Region) (scope : String)
  | eraseRegions (key : String)
  | log (msg : String)
  | openFile (path : String)
  | browserOpen (url : String) (browser : Option String)
  | errorMessage (msg : String)
  | acquireLock
  | releaseLock
deriving DecidableEq

/-- The module-level mutable state of `UrlHighlighter`: `urls_for_view`,
`scopes_for_view` (Python dicts, modelled as association lists with unique
keys) and `ignored_views` (a Python *list*). -/
structure PluginState where
  urls_for_view : List (Nat × List Region)
  scopes_for_view : List (Nat × List String)
  ignored_views : List Nat
deriving DecidableEq

/-- Python dict lookup `m.get(k)` / `m[k]` on an association list. -/
def lookupKey {α : Type} : List (Nat × α) → Nat → Option α
  | [], _ => none
  | p :: rest, k => if p.1 = k then some p.2 else lookupKey rest k

/-- Python dict assignment `m[k] = v`. -/
def setKey {α : Type} : List (Nat × α) → Nat → α → List (Nat × α)
  | [], k, v => [(k, v)]
  | p :: rest, k, v => if p.1 = k then (k, v) :: rest else p :: setKey rest k v

/-- Python dict deletion `del m[k]` (guarded by `k in m` in the source, so
deleting an absent key is a no-op here). -/
def eraseKey {α : Type} : List (Nat × α) → Nat → List (Nat × α)
  | [], _ => []
  | p :: rest, k => if p.1 = k then eraseKey rest k else p :: eraseKey rest k

/-- Deduplication keeping first occurrences; determinizes Python's `set(...)`
iteration wherever the source builds a set from a list. -/
def dedupFirst : List String → List String
  | [] => []
  | x :: xs => x :: (dedupFirst xs).filter (fun y => !(y == x))

/-- `UrlHighlighter.URL_REGEX`. -/
def URL_REGEX : String :=
  "\\bhttps?://[-A-Za-z0-9+&@#/%?=~_()|!:,.;\x27]*[-A-Za-z0-9+&@#/%=~_(|]"

/-- The combined regex of `update_url_highlights`:
`'({})|({})'.format(URL_REGEX, file_folder_regex)` when a supplementary
pattern is configured, else `URL_REGEX` alone. -/
def combined_regex (settings : Settings) : String :=
  if settings.file_folder_regex = "" then URL_REGEX
  else "(" ++ URL_REGEX ++ ")|(" ++ settings.file_folder_regex ++ ")"

/-- `view.find_all(combined_regex)`: the scan result for this view under
these settings. -/
def scan_urls (settings : Settings) (v : ViewEnv) : List Region :=
  v.findAll (combined_regex settings)

/-- The region-key prefix: `u'clickable-urls ' + scope_name`. -/
def marker_key (scope_name : String) : String := "clickable-urls " ++ scope_name

/-- The `scope_map.setdefault(scope_name, []).append(url)` step: append `u`
to the group keyed `sc`, creating the group at the end if absent (Python
dict insertion order). -/
def insert_group : List (String × List Region) → String → Region → List (String × List Region)
  | [], sc, u => [(sc, [u])]
  | g :: rest, sc, u =>
    if g.1 = sc then (g.1, g.2 ++ [u]) :: rest else g :: insert_group rest sc u

/-- The grouping loop of `highlight_urls`, threading the accumulated
`scope_map`. -/
def group_by_scope_aux (f : Nat → String) : List Region → List (String × List Region) → List (String × List Region)
  | [], acc => acc
  | u :: rest, acc => group_by_scope_aux f rest (insert_group acc (f u.a) u)

/-- `scope_map` of `highlight_urls`: urls grouped by `view.scope_name(url.a)`. -/
def group_by_scope (f : Nat → String) (urls : List Region) : List (String × List Region) :=
  group_by_scope_aux f urls []

/-- The ST2 `empty region underline` hack of `underline_regions`:
`[sublime.Region(pos, pos) for region in regions for pos in range(region.a, region.b)]`. -/
def char_regions (regions : List Region) : List Region :=
  (regions.map (fun r => (List.range (r.b - r.a)).map (fun i => Region.mk (r.a + i) (r.a + i)))).flatten

/-- `UrlHighlighter.underline_regions`: one `add_regions` call, keyed by
`clickable-urls <scope>`; `modern` is `sublime.version() >= '3019'`. -/
def underline_regions (modern : Bool) (scope_name : String) (regions : List Region) : Effect :=
  if modern then Effect.addRegions (marker_key scope_name) regions scope_name
  else Effect.addRegions (marker_key scope_name) (char_regions regions) scope_name

/-- The erase loop of `update_view_scopes`: when the previously stored scope
collection is truthy (not `None` and not empty), erase the marker group of
every scope in `set(old_scopes) - set(new_scopes)`. -/
def stale_scope_erases (old_scopes : Option (List String)) (new_scopes : List String) : List Effect :=
  match old_scopes with
  | none => []
  | some old =>
    if old.isEmpty then []
    else ((dedupFirst old).filter (fun sc => !(new_scopes.contains sc))).map
      (fun sc => Effect.eraseRegions (marker_key sc))

/-- `UrlHighlighter.update_view_scopes`: erase the stale scopes, then store
`new_scopes` unconditionally. -/
def update_view_scopes (view_id : Nat) (new_scopes : List String) (s : PluginState) : PluginState × List Effect :=
  ({ s with scopes_for_view := setKey s.scopes_for_view view_id new_scopes },
   stale_scope_erases (lookupKey s.scopes_for_view view_id) new_scopes)

/-- `UrlHighlighter.highlight_urls`: build `scope_map`, issue one
`underline_regions` call per scope group, then call `update_view_scopes`
with `scope_map.keys()`. -/
def highlight_urls (modern : Bool) (v : ViewEnv) (urls : List Region) (s : PluginState) : PluginState × List Effect :=
  ((update_view_scopes v.id ((group_by_scope v.scopeAt urls).map Prod.fst) s).1,
   (group_by_scope v.scopeAt urls).map (fun g => underline_regions modern g.1 g.2)
     ++ (update_view_scopes v.id ((group_by_scope v.scopeAt urls).map Prod.fst) s).2)

/-- `UrlHighlighter.update_url_highlights`: the logic entry point.  Gate on
`auto_find_urls` unless forced; skip ignored views; scan; on more than
`max_url_limit` matches log and append the view to `ignored_views` without
storing; otherwise store the matches and, when `highlight_urls` is set,
highlight them. -/
def update_url_highlights (settings : Settings) (modern : Bool) (v : ViewEnv) (force : Bool) (s : PluginState) : PluginState × List Effect :=
  if force = false ∧ settings.auto_find_urls = false then (s, [])
  else if v.id ∈ s.ignored_views then (s, [])
  else if settings.max_url_limit < (scan_urls settings v).length then
    ({ s with ignored_views := s.ignored_views ++ [v.id] },
     [Effect.log ("UrlHighlighter: ignoring view with " ++ toString (scan_urls settings v).length ++ " URLs")])
  else if settings.highlight_urls = true then
    highlight_urls modern v (scan_urls settings v)
      { s with urls_for_view := setKey s.urls_for_view v.id (scan_urls settings v) }
  else ({ s with urls_for_view := setKey s.urls_for_view v.id (scan_urls settings v) }, [])

/-- `UrlHighlighter.update_url_highlights_async`: the same computation run
with `highlight_semaphore` acquired before and released after. -/
def update_url_highlights_async (settings : Settings) (modern : Bool) (v : ViewEnv) (force : Bool) (s : PluginState) : PluginState × List Effect :=
  ((update_url_highlights settings modern v force s).1,
   Effect.acquireLock :: ((update_url_highlights settings modern v force s).2 ++ [Effect.releaseLock]))

/-- `del l[i]` on a Python list: delete by *index*; `none` models the
`IndexError` raised when the index is out of range. -/
def pyDelIndex (l : List Nat) (i : Nat) : Option (List Nat) :=
  if i < l.length then some (l.eraseIdx i) else none

/-- `UrlHighlighter.on_close`: for each of `urls_for_view`, `scopes_for_view`
and `ignored_views`, if `view.id() in map` then `del map[view.id()]`.  The
first two are dicts (delete by key); `ignored_views` is a list, so the same
statement deletes by index — the second component records the `IndexError`
message when that raises. -/
def on_close (s : PluginState) (view_id : Nat) : PluginState × Option String :=
  if view_id ∈ s.ignored_views then
    match pyDelIndex s.ignored_views view_id with
    | some l2 =>
      ({ urls_for_view := eraseKey s.urls_for_view view_id,
         scopes_for_view := eraseKey s.scopes_for_view view_id,
         ignored_views := l2 }, none)
    | none =>
      ({ urls_for_view := eraseKey s.urls_for_view view_id,
         scopes_for_view := eraseKey s.scopes_for_view view_id,
         ignored_views := s.ignored_views }, some "IndexError: list assignment index out of range")
  else
    ({ urls_for_view := eraseKey s.urls_for_view view_id,
       scopes_for_view := eraseKey s.scopes_for_view view_id,
       ignored_views := s.ignored_views }, none)

/-- `open_url(url, view)`: open as a document when `os.path.isfile(url)`;
otherwise `webbrowser.get(browser).open(url)`, turning a `webbrowser.Error`
into a modal `sublime.error_message`.  `isFile` and `launch` determinize the
filesystem and the browser launcher. -/
def open_url (url : String) (browser : Option String) (isFile launch : String → Bool) : List Effect :=
  if isFile url then [Effect.openFile url]
  else if launch url then [Effect.browserOpen url browser]
  else [Effect.errorMessage "Failed to open browser. See \"Customizing the browser\" in the README."]

namespace OpenUrlUnderCursorCommand

/-- `OpenUrlUnderCursorCommand.run`: when the view has stored urls, take the
first selection region; if it is empty, replace it by the first stored url
region that `contains` it (returning when the result is falsy — `None` or a
zero-length region); finally `open_url(view.substr(selection))`. -/
def run (s : PluginState) (v : ViewEnv) (sel : Region) (browser : Option String) (isFile launch : String → Bool) : List Effect :=
  match lookupKey s.urls_for_view v.id with
  | none => []
  | some urls =>
    if sel.a = sel.b then
      match urls.find? (fun u => u.contains_region sel) with
      | none => []
      | some u => if u.size = 0 then [] else open_url (v.substr u) browser isFile launch
    else open_url (v.substr sel) browser isFile launch

end OpenUrlUnderCursorCommand

namespace OpenAllUrlsCommand

/-- The `set([self.view.substr(url_region) for url_region in ...])`
subexpression of `OpenAllUrlsCommand.run`: the deduplicated url texts. -/
def distinct_urls (s : PluginState) (v : ViewEnv) : List String :=
  match lookupKey s.urls_for_view v.id with
  | none => []
  | some urls => dedupFirst (urls.map v.substr)

/-- `OpenAllUrlsCommand.run`: when the view has stored urls, build the set of
distinct url texts and loop `open_url(url, view)` over it — but `view` is an
unbound name (the method only has `self.view`), so the first loop iteration
raises `NameError`; an empty set never enters the loop. -/
def run (s : PluginState) (v : ViewEnv) : Except String (List Effect) :=
  match lookupKey s.urls_for_view v.id with
  | none => Except.ok []
  | some urls =>
    match dedupFirst (urls.map v.substr) with
    | [] => Except.ok []
    | _ :: _ => Except.error "NameError: name view is not defined"

end OpenAllUrlsCommand

/-- Modelled from the spec: `resolveUnderCursor` with *half-open* containment
`[start, end)` — "find the first stored Match whose range contains the cursor
offset, following insertion order". -/
def resolve_under_cursor_halfopen (ms : List Region) (pos : Nat) : Option Region :=
  ms.find? (fun r => decide (r.rbegin ≤ pos ∧ pos < r.rend))

/-- The resolution the source actually performs for a zero-width cursor:
first stored match whose *closed* range `[start, end]` contains the offset. -/
def resolve_under_cursor_closed (ms : List Region) (pos : Nat) : Option Region :=
  ms.find? (fun r => decide (r.rbegin ≤ pos ∧ pos ≤ r.rend))

/-- The event-listener entry points of the plugin plus the find-urls command. -/
inductive EntryPoint where
  | onActivated
  | onLoad
  | onModified
  | onLoadAsync
  | onModifiedAsync
  | onCloseEvt
  | findUrlsCommand
deriving DecidableEq

/-- What each handler body does with the scan pipeline. -/
inductive HandlerAction where
  | noScan
  | scanDirect
  | scanLocked
  | closesView
deriving DecidableEq

/-- Structural reading of each handler body: `on_activated` calls
`update_url_highlights` directly; `on_load`/`on_modified` do so only when
`sublime.version() < '3000'` (`st2`); the `_async` listeners and
`FindUrlsCommand` go through `update_url_highlights_async`; `on_close` only
clears tables. -/
def handler_action (st2 : Bool) : EntryPoint → HandlerAction
  | .onActivated => .scanDirect
  | .onLoad => if st2 then .scanDirect else .noScan
  | .onModified => if st2 then .scanDirect else .noScan
  | .onLoadAsync => .scanLocked
  | .onModifiedAsync => .scanLocked
  | .onCloseEvt => .closesView
  | .findUrlsCommand => .scanLocked

/-- Whether the entry point runs the scan-and-store sequence at all. -/
def triggers_scan (st2 : Bool) (e : EntryPoint) : Bool :=
  match handler_action st2 e with
  | .scanDirect => true
  | .scanLocked => true
  | _ => false

/-- Whether the entry point acquires `highlight_semaphore` around the scan. -/
def acquires_semaphore (st2 : Bool) (e : EntryPoint) : Bool :=
  match handler_action st2 e with
  | .scanLocked => true
  | _ => false

/-- The ordering property claimed of a highlight cycle: every `erase_regions`
call precedes every `add_regions` call (all erases form a prefix). -/
def erases_before_adds (ops : List Effect) : Bool :=
  (ops.dropWhile (fun op => match op with | Effect.eraseRegions _ => true | _ => false)).all
    (fun op => match op with | Effect.eraseRegions _ => false | _ => true)


lemma marker_key_inj {a b : String} (h : marker_key a = marker_key b) : a = b := by
  unfold marker_key at h
  have h2 : ("clickable-urls " ++ a).data = ("clickable-urls " ++ b).data := by rw [h]
  simp only [String.data_append] at h2
  exact String.ext (List.append_cancel_left h2)

lemma find?_congr {α : Type} (p q : α → Bool) :
    ∀ l : List α, (∀ a ∈ l, p a = q a) → l.find? p = l.find? q
  | [], _ => rfl
  | x :: xs, h => by
    simp only [List.find?]
    rw [h x (List.mem_cons_self x xs)]
    cases hq : q x with
    | true => rfl
    | false => exact find?_congr p q xs (fun a ha => h a (List.mem_cons_of_mem x ha))

lemma mem_dedupFirst {a : String} : ∀ {l : List String}, a ∈ dedupFirst l ↔ a ∈ l
  | [] => by simp [dedupFirst]
  | x :: xs => by
    by_cases hax : a = x
    · subst hax; simp [dedupFirst]
    · simp [dedupFirst, List.mem_filter, hax, mem_dedupFirst (l := xs)]

lemma lookupKey_setKey_self {α : Type} (m : List (Nat × α)) (k : Nat) (v : α) :
    lookupKey (setKey m k v) k = some v := by
  induction m with
  | nil => simp [setKey, lookupKey]
  | cons p rest ih =>
    by_cases h : p.1 = k
    · simp [setKey, h, lookupKey]
    · simp [setKey, h, lookupKey, ih]

lemma keys_insert_group (acc : List (String × List Region)) (sc : String) (u : Region) :
    (insert_group acc sc u).map Prod.fst =
      if sc ∈ acc.map Prod.fst then acc.map Prod.fst else acc.map Prod.fst ++ [sc] := by
  induction acc with
  | nil => simp [insert_group]
  | cons g rest ih =>
    by_cases h : g.1 = sc
    · simp [insert_group, h]
    · have hne : sc ≠ g.1 := fun he => h he.symm
      by_cases hmem : sc ∈ rest.map Prod.fst
      · simp [insert_group, h, ih, hmem, hne]
      · simp [insert_group, h, ih, hmem, hne]

lemma mem_keys_insert_group {k : String} {acc : List (String × List Region)} {sc : String} {u : Region} :
    k ∈ (insert_group acc sc u).map Prod.fst ↔ k ∈ acc.map Prod.fst ∨ k = sc := by
  rw [keys_insert_group]
  by_cases h : sc ∈ acc.map Prod.fst
  · rw [if_pos h]
    constructor
    · exact Or.inl
    · rintro (h1 | rfl)
      · exact h1
      · exact h
  · rw [if_neg h]
    simp

lemma nodup_keys_insert_group {acc : List (String × List Region)} {sc : String} {u : Region}
    (h : (acc.map Prod.fst).Nodup) : ((insert_group acc sc u).map Prod.fst).Nodup := by
  rw [keys_insert_group]
  by_cases hm : sc ∈ acc.map Prod.fst
  · simpa [hm] using h
  · simp [hm, List.nodup_append, h]

lemma insert_group_sound {f : Nat → String} {sc : String} {u : Region} (hsc : f u.a = sc) :
    ∀ {acc : List (String × List Region)}, (∀ g ∈ acc, ∀ r ∈ g.2, f r.a = g.1) →
      ∀ g ∈ insert_group acc sc u, ∀ r ∈ g.2, f r.a = g.1 := by
  intro acc
  induction acc with
  | nil =>
    intro _ g hg r hr
    simp [insert_group] at hg
    subst hg
    simp at hr
    subst hr
    exact hsc
  | cons g0 rest ih =>
    intro hacc g hg r hr
    by_cases h : g0.1 = sc
    · simp only [insert_group, if_pos h] at hg
      rcases List.mem_cons.mp hg with rfl | hg2
      · rcases List.mem_append.mp hr with hr1 | hr2
        · exact hacc g0 (List.mem_cons_self _ _) r hr1
        · simp at hr2
          subst hr2
          rw [hsc, h]
      · exact hacc g (List.mem_cons_of_mem _ hg2) r hr
    · simp only [insert_group, if_neg h] at hg
      rcases List.mem_cons.mp hg with rfl | hg2
      · exact hacc g (List.mem_cons_self _ _) r hr
      · exact ih (fun g2 hg2b => hacc g2 (List.mem_cons_of_mem _ hg2b)) g hg2 r hr

lemma insert_group_cover_self (acc : List (String × List Region)) (sc : String) (u : Region) :
    ∃ rs, (sc, rs) ∈ insert_group acc sc u ∧ u ∈ rs := by
  induction acc with
  | nil => exact ⟨[u], by simp [insert_group]⟩
  | cons g0 rest ih =>
    by_cases h : g0.1 = sc
    · refine ⟨g0.2 ++ [u], ?_, by simp⟩
      simp [insert_group, h]
    · rcases ih with ⟨rs, hrs, hu⟩
      exact ⟨rs, by simp [insert_group, h, hrs], hu⟩

lemma insert_group_cover_mono {acc : List (String × List Region)} {sc : String} {u : Region}
    {k : String} {m : Region} {rs : List Region} (h : (k, rs) ∈ acc) (hm : m ∈ rs) :
    ∃ rs2, (k, rs2) ∈ insert_group acc sc u ∧ m ∈ rs2 := by
  induction acc with
  | nil => simp at h
  | cons g0 rest ih =>
    by_cases hk : g0.1 = sc
    · rcases List.mem_cons.mp h with rfl | h2
      · exact ⟨rs ++ [u], by simp at hk; simp [insert_group, hk], List.mem_append_left _ hm⟩
      · exact ⟨rs, by simp [insert_group, hk, h2], hm⟩
    · rcases List.mem_cons.mp h with rfl | h2
      · exact ⟨rs, by simp [insert_group, hk], hm⟩
      · rcases ih h2 with ⟨rs2, hrs2, hm2⟩
        exact ⟨rs2, by simp [insert_group, hk, hrs2], hm2⟩

lemma group_by_scope_aux_keys {f : Nat → String} {sc : String} :
    ∀ (urls : List Region) (acc : List (String × List Region)),
      sc ∈ (group_by_scope_aux f urls acc).map Prod.fst ↔
        sc ∈ acc.map Prod.fst ∨ ∃ m ∈ urls, f m.a = sc
  | [], acc => by simp [group_by_scope_aux]
  | u :: rest, acc => by
    rw [group_by_scope_aux, group_by_scope_aux_keys rest, mem_keys_insert_group]
    constructor
    · rintro ((h | rfl) | h)
      · exact Or.inl h
      · exact Or.inr ⟨u, by simp⟩
      · rcases h with ⟨m, hm, hf⟩
        exact Or.inr ⟨m, List.mem_cons_of_mem _ hm, hf⟩
    · rintro (h | ⟨m, hm, hf⟩)
      · exact Or.inl (Or.inl h)
      · rcases List.mem_cons.mp hm with rfl | hm2
        · exact Or.inl (Or.inr hf.symm)
        · exact Or.inr ⟨m, hm2, hf⟩

lemma group_by_scope_aux_nodup {f : Nat → String} :
    ∀ (urls : List Region) (acc : List (String × List Region)),
      (acc.map Prod.fst).Nodup → ((group_by_scope_aux f urls acc).map Prod.fst).Nodup
  | [], _ => fun h => h
  | _ :: rest, _ => fun h =>
    group_by_scope_aux_nodup rest _ (nodup_keys_insert_group h)

lemma group_by_scope_aux_sound {f : Nat → String} :
    ∀ (urls : List Region) (acc : List (String × List Region)),
      (∀ g ∈ acc, ∀ r ∈ g.2, f r.a = g.1) →
      ∀ g ∈ group_by_scope_aux f urls acc, ∀ r ∈ g.2, f r.a = g.1
  | [], _ => fun h => h
  | _ :: rest, _ => fun h =>
    group_by_scope_aux_sound rest _ (insert_group_sound rfl h)

lemma group_by_scope_aux_cover {f : Nat → String} :
    ∀ (urls : List Region) (acc : List (String × List Region)) (m : Region),
      (m ∈ urls ∨ ∃ rs, (f m.a, rs) ∈ acc ∧ m ∈ rs) →
      ∃ rs, (f m.a, rs) ∈ group_by_scope_aux f urls acc ∧ m ∈ rs
  | [], acc, m => by
    rintro (h | h)
    · simp at h
    · simpa [group_by_scope_aux] using h
  | u :: rest, acc, m => by
    intro h
    rw [group_by_scope_aux]
    apply group_by_scope_aux_cover rest
    rcases h with h | ⟨rs, hrs, hm⟩
    · rcases List.mem_cons.mp h with rfl | h2
      · exact Or.inr (insert_group_cover_self acc (f m.a) m)
      · exact Or.inl h2
    · exact Or.inr (insert_group_cover_mono hrs hm)

lemma group_by_scope_keys {f : Nat → String} {urls : List Region} {sc : String} :
    sc ∈ (group_by_scope f urls).map Prod.fst ↔ ∃ m ∈ urls, f m.a = sc := by
  rw [group_by_scope, group_by_scope_aux_keys]
  simp

lemma group_by_scope_nodup {f : Nat → String} {urls : List Region} :
    ((group_by_scope f urls).map Prod.fst).Nodup :=
  group_by_scope_aux_nodup urls [] (by simp)

lemma group_by_scope_sound {f : Nat → String} {urls : List Region} :
    ∀ g ∈ group_by_scope f urls, ∀ r ∈ g.2, f r.a = g.1 :=
  group_by_scope_aux_sound urls [] (by simp)

lemma group_by_scope_cover {f : Nat → String} {urls : List Region} {m : Region} (h : m ∈ urls) :
    ∃ rs, (f m.a, rs) ∈ group_by_scope f urls ∧ m ∈ rs :=
  group_by_scope_aux_cover urls [] m (Or.inl h)


lemma update_url_highlights_skip (settings : Settings) (modern : Bool) (v : ViewEnv) (force : Bool)
    (s : PluginState) (hign : v.id ∈ s.ignored_views) :
    update_url_highlights settings modern v force s = (s, []) := by
  unfold update_url_highlights
  by_cases h1 : force = false ∧ settings.auto_find_urls = false
  · rw [if_pos h1]
  · rw [if_neg h1, if_pos hign]

lemma update_url_highlights_store (settings : Settings) (modern : Bool) (v : ViewEnv) (force : Bool)
    (s : PluginState)
    (hgate : force = true ∨ settings.auto_find_urls = true)
    (hign : v.id ∉ s.ignored_views)
    (hlim : (scan_urls settings v).length ≤ settings.max_url_limit) :
    update_url_highlights settings modern v force s =
      if settings.highlight_urls = true then
        highlight_urls modern v (scan_urls settings v)
          { s with urls_for_view := setKey s.urls_for_view v.id (scan_urls settings v) }
      else ({ s with urls_for_view := setKey s.urls_for_view v.id (scan_urls settings v) }, []) := by
  unfold update_url_highlights
  have h1 : ¬(force = false ∧ settings.auto_find_urls = false) := by
    rcases hgate with h | h <;> simp [h]
  rw [if_neg h1, if_neg hign, if_neg (Nat.not_lt.mpr hlim)]

lemma mem_stale_scope_erases {old_scopes : Option (List String)} {new_scopes : List String} {sc : String} :
    Effect.eraseRegions (marker_key sc) ∈ stale_scope_erases old_scopes new_scopes ↔
      ((∃ old, old_scopes = some old ∧ sc ∈ old) ∧ sc ∉ new_scopes) := by
  cases old_scopes with
  | none => simp [stale_scope_erases]
  | some old =>
    by_cases hemp : old.isEmpty
    · have hnil : old = [] := by simpa [List.isEmpty_iff] using hemp
      subst hnil
      simp [stale_scope_erases]
    · simp only [stale_scope_erases, if_neg hemp]
      constructor
      · intro hmem
        rcases List.mem_map.mp hmem with ⟨sc2, hsc2, heq⟩
        have hk : marker_key sc2 = marker_key sc := by injection heq
        have hscsc : sc2 = sc := marker_key_inj hk
        subst hscsc
        rcases List.mem_filter.mp hsc2 with ⟨hd, hnc⟩
        refine ⟨⟨old, rfl, mem_dedupFirst.mp hd⟩, fun hin => ?_⟩
        have hni : sc2 ∉ new_scopes := by simpa using hnc
        exact hni hin
      · rintro ⟨⟨old2, hold2, hsc⟩, hnot⟩
        have hold2e : old2 = old := by
          injection hold2 with h2
          exact h2.symm
        subst hold2e
        apply List.mem_map.mpr
        refine ⟨sc, ?_, rfl⟩
        apply List.mem_filter.mpr
        refine ⟨mem_dedupFirst.mpr hsc, ?_⟩
        simpa using hnot

/-- C4: the highlight differencer erases exactly the marker groups of
`oldScopes - newScopes` (set difference), and the stored scope set becomes
`newScopes` unconditionally, even when `newScopes` is empty. -/
theorem update_view_scopes_diff (s : PluginState) (view_id : Nat) (new_scopes : List String) :
    (∀ sc : String,
        Effect.eraseRegions (marker_key sc) ∈ (update_view_scopes view_id new_scopes s).2 ↔
          ((∃ old, lookupKey s.scopes_for_view view_id = some old ∧ sc ∈ old) ∧ sc ∉ new_scopes))
    ∧ lookupKey (update_view_scopes view_id new_scopes s).1.scopes_for_view view_id = some new_scopes := by
  constructor
  · intro sc
    simp only [update_view_scopes]
    exact mem_stale_scope_erases
  · simp only [update_view_scopes]
    exact lookupKey_setKey_self _ _ _

/-- C7: `open_url` opens an existing local file as a document (and never
touches the browser for it); otherwise it hands the string to the browser
launcher, and a launch failure becomes a modal error message instead of a
propagated exception. -/
theorem open_url_dispatch (url : String) (browser : Option String) (isFile launch : String → Bool) :
    (open_url url browser isFile launch = [Effect.openFile url] ↔ isFile url = true)
    ∧ ((∃ u b, Effect.browserOpen u b ∈ open_url url browser isFile launch) ↔
        (isFile url = false ∧ launch url = true))
    ∧ (Effect.errorMessage "Failed to open browser. See \"Customizing the browser\" in the README."
          ∈ open_url url browser isFile launch ↔
        (isFile url = false ∧ launch url = false)) := by
  by_cases hf : isFile url <;> by_cases hl : launch url <;>
    simp [open_url, hf, hl]

/-- C10: for a view with no entry in `urls_for_view`, both dispatch commands
are complete no-ops: no effect is issued and no error is raised. -/
theorem unscanned_commands_noop (s : PluginState) (v : ViewEnv) (sel : Region)
    (browser : Option String) (isFile launch : String → Bool)
    (h : lookupKey s.urls_for_view v.id = none) :
    OpenUrlUnderCursorCommand.run s v sel browser isFile launch = []
    ∧ OpenAllUrlsCommand.run s v = Except.ok [] := by
  constructor
  · simp [OpenUrlUnderCursorCommand.run, h]
  · simp [OpenAllUrlsCommand.run, h]

/-- C9 counterexample: `on_activated` triggers the scan-and-store sequence
but does not acquire `highlight_semaphore`, refuting the claim that every
scanning entry point mutates the tables only inside the locked section. -/
theorem scan_lock_counterexample :
    (triggers_scan false EntryPoint.onActivated = true
      ∧ acquires_semaphore false EntryPoint.onActivated = false)
    ∧ ¬(∀ (st2 : Bool) (e : EntryPoint),
          triggers_scan st2 e = true → acquires_semaphore st2 e = true) := by
  refine ⟨⟨rfl, rfl⟩, fun h => ?_⟩
  have h2 := h false EntryPoint.onActivated rfl
  simp [acquires_semaphore, handler_action] at h2

/-- C9 (amended): exactly the async listeners and the find-urls command run
the scan under the single shared semaphore, which is acquired before and
released after the scan-and-store sequence; `on_activated` and the ST2
blocking handlers scan without it. -/
theorem scan_lock_amended :
    (∀ (st2 : Bool) (e : EntryPoint),
        acquires_semaphore st2 e = true ↔
          (e = EntryPoint.onLoadAsync ∨ e = EntryPoint.onModifiedAsync ∨
            e = EntryPoint.findUrlsCommand))
    ∧ (∀ (settings : Settings) (modern : Bool) (v : ViewEnv) (force : Bool) (s : PluginState),
        (update_url_highlights_async settings modern v force s).1 =
            (update_url_highlights settings modern v force s).1
        ∧ (update_url_highlights_async settings modern v force s).2 =
            Effect.acquireLock ::
              ((update_url_highlights settings modern v force s).2 ++ [Effect.releaseLock])) := by
  refine ⟨?_, fun _ _ _ _ _ => ⟨rfl, rfl⟩⟩
  intro st2 e
  cases e <;> cases st2 <;> simp [acquires_semaphore, handler_action]

/-- C3: `on_close` on a view that sits in `ignored_views` executes
`del ignored_views[view.id()]` — deletion by *index* on a list — so it
either raises `IndexError` (leaving the id in the Ignore Set) or deletes a
different view's entry while the closed id stays ignored. -/
theorem on_close_ignored_views_bug :
    on_close { urls_for_view := [], scopes_for_view := [], ignored_views := [2] } 2 =
        ({ urls_for_view := [], scopes_for_view := [], ignored_views := [2] },
          some "IndexError: list assignment index out of range")
    ∧ 2 ∈ (on_close { urls_for_view := [], scopes_for_view := [], ignored_views := [2] } 2).1.ignored_views
    ∧ on_close { urls_for_view := [], scopes_for_view := [], ignored_views := [3, 0] } 0 =
        ({ urls_for_view := [], scopes_for_view := [], ignored_views := [0] }, none)
    ∧ 0 ∈ (on_close { urls_for_view := [], scopes_for_view := [], ignored_views := [3, 0] } 0).1.ignored_views := by
  refine ⟨?_, by decide, ?_, by decide⟩ <;> rfl

/-- The concrete state for the open-all bug: one view with three stored
matches whose texts are `http://a`, `http://a`, `http://b`. -/
def cex_state6 : PluginState :=
  { urls_for_view := [(1, [⟨0, 8⟩, ⟨9, 17⟩, ⟨18, 26⟩])], scopes_for_view := [], ignored_views := [] }

/-- The view environment for the open-all bug. -/
def cex_view6 : ViewEnv :=
  ⟨1, fun _ => [], fun _ => "", fun r => if r.a = 18 then "http://b" else "http://a"⟩

/-- C6: `OpenAllUrlsCommand.run` does deduplicate the stored match texts, but
its loop body passes the unbound name `view` to `open_url`, so the first
iteration raises `NameError` and no URL is ever routed to the opener. -/
theorem open_all_urls_nameerror :
    OpenAllUrlsCommand.distinct_urls cex_state6 cex_view6 = ["http://a", "http://b"]
    ∧ OpenAllUrlsCommand.run cex_state6 cex_view6 =
        Except.error "NameError: name view is not defined" := by
  exact ⟨by decide, rfl⟩


/-- C5: after a scan that chose to highlight, the stored scope set is exactly
the set of distinct scope labels at the start offsets of the stored matches. -/
theorem scopes_invariant (settings : Settings) (modern : Bool) (v : ViewEnv) (force : Bool)
    (s : PluginState)
    (hgate : force = true ∨ settings.auto_find_urls = true)
    (hign : v.id ∉ s.ignored_views)
    (hlim : (scan_urls settings v).length ≤ settings.max_url_limit)
    (hhl : settings.highlight_urls = true) :
    ∃ storedUrls storedScopes,
      lookupKey (update_url_highlights settings modern v force s).1.urls_for_view v.id = some storedUrls
      ∧ lookupKey (update_url_highlights settings modern v force s).1.scopes_for_view v.id = some storedScopes
      ∧ storedScopes.Nodup
      ∧ (∀ sc, sc ∈ storedScopes ↔ ∃ m ∈ storedUrls, v.scopeAt m.a = sc) := by
  rw [update_url_highlights_store settings modern v force s hgate hign hlim, if_pos hhl]
  refine ⟨scan_urls settings v, (group_by_scope v.scopeAt (scan_urls settings v)).map Prod.fst,
    ?_, ?_, group_by_scope_nodup, fun sc => group_by_scope_keys⟩
  · simp [highlight_urls, update_view_scopes, lookupKey_setKey_self]
  · simp [highlight_urls, update_view_scopes, lookupKey_setKey_self]

/-- C1 (amended): a scan of a non-ignored view yielding at most
`max_url_limit` matches stores them (and, with highlighting on, underlines
every match inside its scope's marker group); a scan yielding more than the
limit adds the view to the Ignore Set, stores and highlights nothing *new*
(the previously stored match list is left untouched); any scan of an
ignored view is a complete no-op. -/
theorem update_url_highlights_ceiling (settings : Settings) (v : ViewEnv) (force : Bool)
    (s : PluginState)
    (hgate : force = true ∨ settings.auto_find_urls = true)
    (hign : v.id ∉ s.ignored_views) :
    ((scan_urls settings v).length ≤ settings.max_url_limit →
        lookupKey (update_url_highlights settings true v force s).1.urls_for_view v.id =
            some (scan_urls settings v)
        ∧ (settings.highlight_urls = true →
            ∀ m ∈ scan_urls settings v, ∃ rs,
              Effect.addRegions (marker_key (v.scopeAt m.a)) rs (v.scopeAt m.a)
                  ∈ (update_url_highlights settings true v force s).2
              ∧ m ∈ rs))
    ∧ (settings.max_url_limit < (scan_urls settings v).length →
        v.id ∈ (update_url_highlights settings true v force s).1.ignored_views
        ∧ (update_url_highlights settings true v force s).1.urls_for_view = s.urls_for_view
        ∧ ∀ key rs sc, Effect.addRegions key rs sc ∉ (update_url_highlights settings true v force s).2)
    ∧ (∀ (settings2 : Settings) (modern2 : Bool) (v2 : ViewEnv) (force2 : Bool) (s2 : PluginState),
        v2.id ∈ s2.ignored_views →
        update_url_highlights settings2 modern2 v2 force2 s2 = (s2, [])) := by
  refine ⟨?_, ?_, fun settings2 modern2 v2 force2 s2 h =>
    update_url_highlights_skip settings2 modern2 v2 force2 s2 h⟩
  · intro hlim
    rw [update_url_highlights_store settings true v force s hgate hign hlim]
    by_cases hhl : settings.highlight_urls = true
    · rw [if_pos hhl]
      constructor
      · simp [highlight_urls, update_view_scopes, lookupKey_setKey_self]
      · intro _ m hm
        rcases group_by_scope_cover (f := v.scopeAt) hm with ⟨rs, hrs, hmrs⟩
        refine ⟨rs, ?_, hmrs⟩
        simp only [highlight_urls]
        apply List.mem_append_left
        apply List.mem_map.mpr
        exact ⟨(v.scopeAt m.a, rs), hrs, by simp [underline_regions]⟩
    · rw [if_neg hhl]
      exact ⟨lookupKey_setKey_self _ _ _, fun hhl2 => absurd hhl2 hhl⟩
  · intro hlim
    unfold update_url_highlights
    have h1 : ¬(force = false ∧ settings.auto_find_urls = false) := by
      rcases hgate with h | h <;> simp [h]
    rw [if_neg h1, if_neg hign, if_pos hlim]
    refine ⟨by simp, rfl, ?_⟩
    intro key rs sc hmem
    simp at hmem

/-- C8 (amended): a highlighting cycle issues all `add_regions` calls first
— one marker group per distinct scope label, each containing only matches
carrying that label — and only afterwards erases the stale scopes, none of
which is among the newly applied ones. -/
theorem highlight_order_amended (settings : Settings) (v : ViewEnv) (force : Bool)
    (s : PluginState)
    (hgate : force = true ∨ settings.auto_find_urls = true)
    (hign : v.id ∉ s.ignored_views)
    (hlim : (scan_urls settings v).length ≤ settings.max_url_limit)
    (hhl : settings.highlight_urls = true) :
    ∃ (groups : List (String × List Region)) (erases : List Effect),
      (update_url_highlights settings true v force s).2 =
          groups.map (fun g => Effect.addRegions (marker_key g.1) g.2 g.1) ++ erases
      ∧ (groups.map Prod.fst).Nodup
      ∧ (∀ g ∈ groups, ∀ r ∈ g.2, v.scopeAt r.a = g.1)
      ∧ (∀ op ∈ erases, ∃ sc, op = Effect.eraseRegions (marker_key sc)
          ∧ sc ∉ groups.map Prod.fst) := by
  rw [update_url_highlights_store settings true v force s hgate hign hlim, if_pos hhl]
  refine ⟨group_by_scope v.scopeAt (scan_urls settings v),
    (update_view_scopes v.id ((group_by_scope v.scopeAt (scan_urls settings v)).map Prod.fst)
      { s with urls_for_view := setKey s.urls_for_view v.id (scan_urls settings v) }).2,
    ?_, group_by_scope_nodup, group_by_scope_sound, ?_⟩
  · simp [highlight_urls, underline_regions]
  · intro op hop
    simp only [update_view_scopes] at hop
    cases hold : lookupKey
        ({ s with urls_for_view := setKey s.urls_for_view v.id (scan_urls settings v) } :
          PluginState).scopes_for_view v.id with
    | none => rw [hold] at hop; simp [stale_scope_erases] at hop
    | some old =>
      rw [hold] at hop
      by_cases hemp : old.isEmpty
      · simp [stale_scope_erases, hemp] at hop
      · simp only [stale_scope_erases, if_neg hemp] at hop
        rcases List.mem_map.mp hop with ⟨sc, hsc, rfl⟩
        refine ⟨sc, rfl, ?_⟩
        rcases List.mem_filter.mp hsc with ⟨hd, hnc⟩
        simpa using hnc


/-- C2 (amended): with stored matches of positive size, a zero-width cursor
resolves to the first stored match whose *closed* range `[start, end]`
(both endpoints inclusive) contains the cursor offset — opening nothing
when no match contains it — and a non-empty selection is itself the target. -/
theorem open_url_under_cursor_resolution (s : PluginState) (v : ViewEnv) (sel : Region)
    (browser : Option String) (isFile launch : String → Bool) (ms : List Region)
    (hms : lookupKey s.urls_for_view v.id = some ms)
    (hpos : ∀ m ∈ ms, 0 < m.size) :
    (sel.a = sel.b →
      OpenUrlUnderCursorCommand.run s v sel browser isFile launch =
        match resolve_under_cursor_closed ms sel.a with
        | none => []
        | some u => open_url (v.substr u) browser isFile launch)
    ∧ (sel.a ≠ sel.b →
      OpenUrlUnderCursorCommand.run s v sel browser isFile launch =
        open_url (v.substr sel) browser isFile launch) := by
  have hrun : OpenUrlUnderCursorCommand.run s v sel browser isFile launch =
      (if sel.a = sel.b then
        match ms.find? (fun u => u.contains_region sel) with
        | none => []
        | some u => if u.size = 0 then [] else open_url (v.substr u) browser isFile launch
      else open_url (v.substr sel) browser isFile launch) := by
    unfold OpenUrlUnderCursorCommand.run
    rw [hms]
  constructor
  · intro hsel
    rw [hrun, if_pos hsel]
    have h1 : sel.rbegin = sel.a := by
      unfold Region.rbegin
      rw [← hsel, Nat.min_self]
    have h2 : sel.rend = sel.a := by
      unfold Region.rend
      rw [← hsel, Nat.max_self]
    have hfind : ms.find? (fun u => u.contains_region sel) =
        resolve_under_cursor_closed ms sel.a := by
      unfold resolve_under_cursor_closed
      apply find?_congr
      intro u _
      unfold Region.contains_region
      apply decide_eq_decide.mpr
      rw [h1, h2]
    rw [hfind]
    cases hres : resolve_under_cursor_closed ms sel.a with
    | none => rfl
    | some u =>
      have hu : u ∈ ms :=
        List.mem_of_find?_eq_some (by simpa [resolve_under_cursor_closed] using hres)
      have hne : ¬(u.size = 0) := Nat.pos_iff_ne_zero.mp (hpos u hu)
      simp only [if_neg hne]
  · intro hsel
    rw [hrun, if_neg hsel]


/-- The default settings of the source (`auto_find_urls` and
`highlight_urls` true, `max_url_limit` 200, no supplementary pattern, no
configured browser). -/
def default_settings : Settings := ⟨true, true, 200, "", none⟩

/-- Settings with the ceiling configured to zero, so any match at all
exceeds it. -/
def cex_settings_zero : Settings := ⟨true, true, 0, "", none⟩

/-- A view (id 7) whose scan yields one match. -/
def cex_view7 : ViewEnv := ⟨7, fun _ => [⟨10, 20⟩], fun _ => "source.python", fun _ => "u"⟩

/-- A state in which view 7 already has one stored match from an earlier
scan. -/
def cex_state7 : PluginState :=
  { urls_for_view := [(7, [⟨0, 5⟩])], scopes_for_view := [], ignored_views := [] }

/-- C1 counterexample: a view with previously stored matches whose new scan
exceeds the ceiling is added to the Ignore Set, yet its stored match list
stays `[(0, 5)]` — not zero stored matches as the claim states. -/
theorem update_url_highlights_over_limit_counterexample :
    cex_settings_zero.max_url_limit < (scan_urls cex_settings_zero cex_view7).length
    ∧ 7 ∈ (update_url_highlights cex_settings_zero true cex_view7 false cex_state7).1.ignored_views
    ∧ lookupKey (update_url_highlights cex_settings_zero true cex_view7 false cex_state7).1.urls_for_view 7 =
        some [⟨0, 5⟩]
    ∧ (some [(⟨0, 5⟩ : Region)] ≠ (none : Option (List Region)))
    ∧ ([(⟨0, 5⟩ : Region)] ≠ ([] : List Region)) := by
  decide

/-- An empty plugin state. -/
def cex_state_empty : PluginState :=
  { urls_for_view := [], scopes_for_view := [], ignored_views := [] }

/-- A view (id 1) whose scan yields one match with scope `text.plain`. -/
def cex_view_small : ViewEnv := ⟨1, fun _ => [⟨0, 5⟩], fun _ => "text.plain", fun _ => ""⟩

/-- Witness for the ceiling theorem: scanning view 1 (one match, limit 200)
stores exactly that match. -/
theorem update_url_highlights_ceiling_witness :
    lookupKey (update_url_highlights default_settings true cex_view_small true cex_state_empty).1.urls_for_view 1 =
      some [⟨0, 5⟩] := by
  have h := ((update_url_highlights_ceiling default_settings cex_view_small true cex_state_empty
    (Or.inl rfl) (by decide)).1 (by decide)).1
  exact h.trans (by decide)

/-- A view (id 1) whose scan yields three matches spanning two scopes. -/
def cex_view5 : ViewEnv :=
  ⟨1, fun _ => [⟨0, 3⟩, ⟨5, 9⟩, ⟨11, 14⟩],
    fun p => if p < 5 then "string.quoted" else "comment.line", fun _ => ""⟩

/-- Witness for the scope invariant: after scanning view 1 the stored scopes
are exactly the labels at the stored match starts. -/
theorem scopes_invariant_witness :
    ∃ storedUrls storedScopes,
      lookupKey (update_url_highlights default_settings true cex_view5 true cex_state_empty).1.urls_for_view 1 =
          some storedUrls
      ∧ lookupKey (update_url_highlights default_settings true cex_view5 true cex_state_empty).1.scopes_for_view 1 =
          some storedScopes
      ∧ storedScopes.Nodup
      ∧ (∀ sc, sc ∈ storedScopes ↔ ∃ m ∈ storedUrls, cex_view5.scopeAt m.a = sc) :=
  scopes_invariant default_settings true cex_view5 true cex_state_empty
    (Or.inl rfl) (by decide) (by decide) rfl

/-- A view (id 1) whose single match carries scope `b`. -/
def cex_view8 : ViewEnv := ⟨1, fun _ => [⟨0, 5⟩], fun _ => "b", fun _ => ""⟩

/-- A state in which view 1 has scope `a` stored from an earlier highlight. -/
def cex_state8 : PluginState :=
  { urls_for_view := [], scopes_for_view := [(1, ["a"])], ignored_views := [] }

/-- C8 counterexample: rescanning view 1 issues the `add_regions` call for
the new scope `b` *before* erasing the stale scope `a`, so the erase calls
do not all precede the add calls as the claim states. -/
theorem highlight_order_counterexample :
    (update_url_highlights default_settings true cex_view8 true cex_state8).2 =
        [Effect.addRegions "clickable-urls b" [⟨0, 5⟩] "b",
          Effect.eraseRegions "clickable-urls a"]
    ∧ erases_before_adds (update_url_highlights default_settings true cex_view8 true cex_state8).2 =
        false := by
  decide

/-- Witness for the amended ordering theorem at the same concrete cycle. -/
theorem highlight_order_amended_witness :
    ∃ (groups : List (String × List Region)) (erases : List Effect),
      (update_url_highlights default_settings true cex_view8 true cex_state8).2 =
          groups.map (fun g => Effect.addRegions (marker_key g.1) g.2 g.1) ++ erases
      ∧ (groups.map Prod.fst).Nodup
      ∧ (∀ g ∈ groups, ∀ r ∈ g.2, cex_view8.scopeAt r.a = g.1)
      ∧ (∀ op ∈ erases, ∃ sc, op = Effect.eraseRegions (marker_key sc)
          ∧ sc ∉ groups.map Prod.fst) :=
  highlight_order_amended default_settings cex_view8 true cex_state8
    (Or.inl rfl) (by decide) (by decide) rfl

/-- A state in which view 1 has the single stored match `(0, 5)`. -/
def cex_state_end : PluginState :=
  { urls_for_view := [(1, [⟨0, 5⟩])], scopes_for_view := [], ignored_views := [] }

/-- The view for the endpoint counterexample; `substr` names each region by
its start offset. -/
def cex_view_end : ViewEnv := ⟨1, fun _ => [], fun _ => "", fun r => "t" ++ toString r.a⟩

/-- C2 counterexample: with the single stored match `[0, 5)` and the
zero-width cursor at offset 5, the half-open resolution of the claim finds
nothing, yet the command opens the match's text — `Region.contains` is
endpoint-inclusive. -/
theorem open_url_under_cursor_endpoint_counterexample :
    resolve_under_cursor_halfopen [⟨0, 5⟩] 5 = none
    ∧ OpenUrlUnderCursorCommand.run cex_state_end cex_view_end ⟨5, 5⟩ none
        (fun _ => false) (fun _ => true) = [Effect.browserOpen "t0" none]
    ∧ [Effect.browserOpen "t0" none] ≠ ([] : List Effect) := by
  decide

/-- The spec's dispatch example: matches `(0,5)` and `(10,15)` with texts
`http://a` and `http://b`. -/
def cex_state_two : PluginState :=
  { urls_for_view := [(1, [⟨0, 5⟩, ⟨10, 15⟩])], scopes_for_view := [], ignored_views := [] }

/-- The view for the dispatch example. -/
def cex_view_two : ViewEnv :=
  ⟨1, fun _ => [], fun _ => "", fun r => if r.a = 10 then "http://b" else "http://a"⟩

/-- Witness for the cursor-resolution theorem: cursor offset 12 resolves to
the second match and opens `http://b`. -/
theorem open_url_under_cursor_resolution_witness :
    OpenUrlUnderCursorCommand.run cex_state_two cex_view_two ⟨12, 12⟩ none
      (fun _ => false) (fun _ => true) = [Effect.browserOpen "http://b" none] := by
  have h := (open_url_under_cursor_resolution cex_state_two cex_view_two ⟨12, 12⟩ none
    (fun _ => false) (fun _ => true) [⟨0, 5⟩, ⟨10, 15⟩] (by decide) (by decide)).1 rfl
  exact h.trans (by decide)

/-- Witness for the no-op theorem: with nothing stored for view 1, both
commands do nothing. -/
theorem unscanned_commands_noop_witness :
    OpenUrlUnderCursorCommand.run cex_state_empty cex_view_small ⟨0, 0⟩ none
        (fun _ => false) (fun _ => true) = []
    ∧ OpenAllUrlsCommand.run cex_state_empty cex_view_small = Except.ok [] :=
  unscanned_commands_noop cex_state_empty cex_view_small ⟨0, 0⟩ none
    (fun _ => false) (fun _ => true) (by decide)

end ClickableUrls
